import Mathlib

/-
Verification development for the slide-generation streaming core:
the SSE framer (sse.ts), the extraction state machine (extractSlides.ts),
and the transport read loop / retrying fetch wrapper (glmApi.ts / debug.ts).

JavaScript strings are modelled as `List Char` (`JsStr`); JS string indices
are UTF-16 units, which coincide with characters for the ASCII data the
stream carries (surrogate pairs are not modelled).  JSON numbers are
modelled as integers (`Int`); none of the verified paths depend on
fractional values.
-/

abbrev JsStr := List Char

/-- JS `\s` / `String.trim` whitespace, restricted to the ASCII range
(the Unicode space classes never occur in the streams modelled here). -/
def jsSpace (c : Char) : Bool :=
  c = ' ' || c = '\t' || c = '\n' || c = '\r' || c = '\x0b' || c = '\x0c'

/-- JS `String.prototype.trim` (ASCII whitespace). -/
def jsTrim (s : JsStr) : JsStr :=
  ((s.dropWhile jsSpace).reverse.dropWhile jsSpace).reverse

/-- Case-insensitive character comparison, as the `/i` regex flag does on ASCII. -/
def charEqCI (a b : Char) : Bool := a.toLower = b.toLower

/-- JS `String.prototype.toLowerCase` on ASCII data. -/
def toLowerStr (s : JsStr) : JsStr := s.map Char.toLower

/-- `pat` matches at the start of `hay`, case-insensitively. -/
def isPrefixCI : JsStr → JsStr → Bool
  | [], _ => true
  | _ :: _, [] => false
  | p :: ps, h :: hs => charEqCI p h && isPrefixCI ps hs

/-- Index of the leftmost case-insensitive occurrence of `pat` in `hay`
(`String.prototype.search` / leftmost regex match for a literal pattern). -/
def findCI (pat : JsStr) : JsStr → Option Nat
  | [] => if isPrefixCI pat [] then some 0 else none
  | c :: t => if isPrefixCI pat (c :: t) then some 0 else (findCI pat t).map (· + 1)

/-- Whether `hay` contains `pat` case-insensitively (a bare regex `test`). -/
def hasCI (pat : JsStr) : JsStr → Bool
  | [] => isPrefixCI pat []
  | c :: t => isPrefixCI pat (c :: t) || hasCI pat t

/-- Exact (case-sensitive) substring test, as a case-sensitive regex `test`. -/
def hasSub (pat : JsStr) : JsStr → Bool
  | [] => decide (pat = [])
  | c :: t => (decide (pat.isPrefixOf (c :: t))) || hasSub pat t

def digitsToNat? : JsStr → Option Nat
  | [] => none
  | l => l.foldl (fun acc c =>
      match acc with
      | none => none
      | some n => if c.isDigit then some (n * 10 + (c.toNat - '0'.toNat)) else none)
      (some 0)

/-- JS `Number(string)`, restricted to integer-valued inputs: whitespace is
trimmed, the empty string is `0`, an optional sign precedes decimal digits;
anything else is NaN (`none`).  Fractional, hex and exponent forms never
occur in the modelled streams. -/
def strToNumberOpt (s : JsStr) : Option Int :=
  let t := jsTrim s
  if t = [] then some 0
  else match t with
    | '+' :: r => (digitsToNat? r).map Int.ofNat
    | '-' :: r => (digitsToNat? r).map (fun n => -(n : Int))
    | _ => (digitsToNat? t).map Int.ofNat

def backtick : Char := Char.ofNat 96

/-- `s.replace(/^(backtick{3})(?:html)?\s*\/i, "")`: strip one leading
markdown fence marker, an optional `html` tag and following whitespace. -/
def stripLeadFence (s : JsStr) : JsStr :=
  match s with
  | a :: b :: c :: rest =>
    if a = backtick && b = backtick && c = backtick then
      let r1 := if isPrefixCI (("html").data) rest then rest.drop 4 else rest
      r1.dropWhile jsSpace
    else s
  | _ => s

/-- `s.replace(/\s*(backtick{3})$\/i, "")`: strip a trailing fence marker and
the whitespace run immediately before it. -/
def stripTrailFence (s : JsStr) : JsStr :=
  match s.reverse with
  | a :: b :: c :: rest =>
    if a = backtick && b = backtick && c = backtick then
      (rest.dropWhile jsSpace).reverse
    else s
  | _ => s

/-- `stripFences` from extractSlides.ts (also reused verbatim inside
`finalizeSlides`). -/
def stripFences (s : JsStr) : JsStr := stripTrailFence (stripLeadFence s)

/-- `s.replace(/\\n/g, "\n")`: global literal replacement. -/
def replaceEscN : JsStr → JsStr
  | '\\' :: 'n' :: rest => '\n' :: replaceEscN rest
  | c :: rest => c :: replaceEscN rest
  | [] => []

/-- `s.replace(/\\"/g, "\"")`: global literal replacement. -/
def replaceEscQ : JsStr → JsStr
  | '\\' :: '"' :: rest => '"' :: replaceEscQ rest
  | c :: rest => c :: replaceEscQ rest
  | [] => []

/-- The value of one hexadecimal digit, by code point: `0-9`, `a-f`, `A-F`. -/
def hexVal? (c : Char) : Option Nat :=
  let n := c.toNat
  if 48 ≤ n ∧ n ≤ 57 then some (n - 48)
  else if 97 ≤ n ∧ n ≤ 102 then some (n - 87)
  else if 65 ≤ n ∧ n ≤ 70 then some (n - 55)
  else none

/-- The single-character escapes of a JSON string literal, as the table the
decoder below consults. -/
def escChar? (e : Char) : Option Char :=
  if e = 'n' then some '\n'
  else if e = 't' then some '\t'
  else if e = 'r' then some '\r'
  else if e = '"' then some '"'
  else if e = '\\' then some '\\'
  else if e = '/' then some '/'
  else if e = 'b' then some '\x08'
  else if e = 'f' then some '\x0c'
  else none

/-- `JSON.parse('"' ++ s ++ '"')`: decode `s` as the body of a JSON string
literal; `none` models the parse throwing.  A body containing an unescaped
quote, a lone backslash, an invalid escape or a raw control character
fails; `\uXXXX` escapes are decoded when they denote a scalar value
(surrogate pairs are not modelled). -/
def jsonStringBody? : JsStr → Option JsStr
  | [] => some []
  | '\\' :: 'u' :: h1 :: h2 :: h3 :: h4 :: r =>
    (match hexVal? h1, hexVal? h2, hexVal? h3, hexVal? h4 with
     | some a, some b, some c, some d =>
       let n := ((a * 16 + b) * 16 + c) * 16 + d
       if h : n.isValidChar then (jsonStringBody? r).map (Char.ofNatAux n h :: ·)
       else none
     | _, _, _, _ => none)
  | '\\' :: e :: r =>
    (match escChar? e with
     | some c => (jsonStringBody? r).map (c :: ·)
     | none => none)
  | '\\' :: [] => none
  | '"' :: _ => none
  | c :: rest => if c.toNat < 0x20 then none else (jsonStringBody? rest).map (c :: ·)

/-- The test `/\\n|\\t|\\"/.test(s)`: does `s` contain a literal `\n`, `\t`
or `\"` two-character escape sequence. -/
def hasEscSeq (s : JsStr) : Bool :=
  hasSub (['\\', 'n']) s || hasSub (['\\', 't']) s || hasSub (['\\', '"']) s

/-- The test `/<[a-z!\/]/i.test(s)`: a `<` followed by a letter, `!` or `/`. -/
def looksLikeHtmlTag : JsStr → Bool
  | [] => false
  | '<' :: c :: rest =>
    (c.isAlpha || c = '!' || c = '/') || looksLikeHtmlTag (c :: rest)
  | _ :: rest => looksLikeHtmlTag rest

/-- `maybeDecodeJsonString` from extractSlides.ts. -/
def maybeDecodeJsonString (s : JsStr) : JsStr :=
  if hasEscSeq s && !looksLikeHtmlTag s then
    match jsonStringBody? s with
    | some r => r
    | none => replaceEscQ (replaceEscN s)
  else s

/-
JSON values, as produced by `JSON.parse` on an event's `data` payload.
`JSON.parse` itself is a host builtin; the transport model below is
parametrised over it.  After parsing, `null` is the only nullish value a
payload can hold, so JS property access throws exactly on `null` receivers.
-/

inductive Json where
  | str (chars : JsStr)
  | num (val : Int)
  | arr (items : List Json)
  | obj (props : List (String × Json))
  | bool (val : Bool)
  | null

def Json.isNull : Json → Bool
  | .null => true
  | _ => false

/-- JS property access `j[k]` for a non-nullish receiver: `none` models
`undefined` (primitives and arrays have none of the accessed names). -/
def getField (j : Json) (k : String) : Option Json :=
  match j with
  | .obj fs => fs.lookup k
  | _ => none

/-- `asArray` from extractSlides.ts:
`x == null ? [] : Array.isArray(x) ? x : [x]`. -/
def asArray : Option Json → List Json
  | none => []
  | some .null => []
  | some (.arr xs) => xs
  | some j => [j]

/-- JS truthiness of a parsed JSON value (NaN cannot occur in one). -/
def jsTruthy : Json → Bool
  | .null => false
  | .bool b => b
  | .num n => decide (n ≠ 0)
  | .str s => decide (s ≠ [])
  | .arr _ => true
  | .obj _ => true

mutual
/-- JS `String(x)` conversion of a parsed JSON value (arrays join their
elements with commas, nullish elements rendering empty). -/
def jsToString : Json → JsStr
  | .null => ("null").data
  | .bool true => ("true").data
  | .bool false => ("false").data
  | .num n => (toString n).data
  | .str s => s
  | .arr xs => jsToStrings xs
  | .obj _ => ("[object Object]").data

def jsToStrings : List Json → JsStr
  | [] => []
  | [x] => jsToStringElem x
  | x :: y :: xs => jsToStringElem x ++ [','] ++ jsToStrings (y :: xs)

def jsToStringElem : Json → JsStr
  | .null => []
  | j => jsToString j
end

/-- JS `Number(x)` on a parsed JSON value; `none` models NaN.  Objects and
arrays convert through their string form. -/
def jsToNumberOpt : Json → Option Int
  | .num n => some n
  | .str s => strToNumberOpt s
  | .bool b => some (if b then 1 else 0)
  | .null => some 0
  | .arr xs => strToNumberOpt (jsToString (.arr xs))
  | .obj _ => none

/-- JS `v[0]` on a non-nullish value (array head, string head, or the
`"0"` property of an object; `undefined` otherwise). -/
def jsIndex0 : Json → Option Json
  | .arr (x :: _) => some x
  | .arr [] => none
  | .str (c :: _) => some (.str [c])
  | .str [] => none
  | .obj fs => fs.lookup "0"
  | _ => none

/-- The truthiness chain `a || b || ""`: first truthy value, else `""`. -/
def firstTruthy : List (Option Json) → Json
  | [] => .str []
  | none :: rest => firstTruthy rest
  | some v :: rest => if jsTruthy v then v else firstTruthy rest

/-- The nullish chain `a ?? b ?? ""`: first present non-null value, else `""`. -/
def firstNonNullish : List (Option Json) → Json
  | [] => .str []
  | none :: rest => firstNonNullish rest
  | some v :: rest => if v.isNull then firstNonNullish rest else v

/-- Binary nullish coalescing `a ?? b` on possibly-absent values. -/
def nullCoalesce (a b : Option Json) : Option Json :=
  match a with
  | none => b
  | some v => if v.isNull then b else some v

/-- Optional chaining `o?.k` on a possibly-absent, possibly-null value. -/
def optChain (o : Option Json) (k : String) : Option Json :=
  match o with
  | none => none
  | some v => if v.isNull then none else getField v k

/-
The extraction state machine (extractSlides.ts).
-/

/-- The per-position record `{ buf, lastLen, finalized }`. -/
structure ToolState where
  buf : JsStr
  lastLen : Nat
  finalized : Bool
deriving DecidableEq

/-- `StreamExtractionState`; `toolState` is the `Record<number, ...>`,
kept as an association list with (in reachable states) unique keys. -/
structure StreamExtractionState where
  toolState : List (Int × ToolState)
  assistantBuf : JsStr
deriving DecidableEq

def createExtractionState : StreamExtractionState := ⟨[], []⟩

def lookupPos : List (Int × ToolState) → Int → Option ToolState
  | [], _ => none
  | (k, v) :: rest, p => if k = p then some v else lookupPos rest p

def setPos : List (Int × ToolState) → Int → ToolState → List (Int × ToolState)
  | [], p, v => [(p, v)]
  | (k, w) :: rest, p, v => if k = p then (p, v) :: rest else (k, w) :: setPos rest p v

/-- The reset test `/^\s*<!doctype html/i or /^\s*<html[\s>]/i`. -/
def startsReset (s : JsStr) : Bool :=
  let t := s.dropWhile jsSpace
  isPrefixCI (("<!doctype html").data) t ||
    (isPrefixCI (("<html").data) t &&
      match t.drop 5 with
      | c :: _ => jsSpace c || c = '>'
      | [] => false)

/-- The completion test `/<\/html>\s*$/i`. -/
def endsCloseHtml (s : JsStr) : Bool :=
  isPrefixCI (("</html>").data).reverse ((s.reverse).dropWhile jsSpace)

/-- A partial-HTML callback record `(pos, html, complete)`, the arguments of
one `onPartial` invocation. -/
abbrev Report := Int × JsStr × Bool

/-- The body of `onToolChunk` for one position's record: the classification
of the cleaned chunk, the completion test, and the single `onPartial`
report it emits (`none` when the chunk is dropped because the slide is
finalized). -/
def toolStep (ts : ToolState) (raw : JsStr) : ToolState × Option (JsStr × Bool) :=
  if ts.finalized then (ts, none)
  else
    let cleaned := maybeDecodeJsonString (stripFences raw)
    let ts1 :=
      if startsReset cleaned then
        { ts with buf := cleaned, lastLen := cleaned.length }
      else if ts.lastLen < cleaned.length then
        let tail := cleaned.drop ts.lastLen
        if tail ≠ [] then
          { ts with buf := ts.buf ++ tail, lastLen := cleaned.length }
        else ts
      else if cleaned.length < ts.lastLen && cleaned.length > 0 then
        let buf1 := ts.buf ++ cleaned
        { ts with buf := buf1, lastLen := buf1.length }
      else if cleaned.length > 0 && ts.lastLen = 0 then
        { ts with buf := ts.buf ++ cleaned, lastLen := cleaned.length }
      else ts
    let complete := endsCloseHtml ts1.buf
    let ts2 := if complete then { ts1 with finalized := true } else ts1
    (ts2, some (ts1.buf, complete))

/-- `onToolChunk` from extractSlides.ts: upsert the position's record,
run the classification, collect the `onPartial` report. -/
def onToolChunk (st : StreamExtractionState) (pos : Int) (raw : JsStr) :
    StreamExtractionState × List Report :=
  let ts := (lookupPos st.toolState pos).getD ⟨[], 0, false⟩
  let (ts2, rep) := toolStep ts raw
  ({ st with toolState := setPos st.toolState pos ts2 },
   match rep with
   | some (b, c) => [(pos, b, c)]
   | none => [])

/-- The tool-call branch of the content-part walk: name matching, position
and delta extraction, dispatch to `onToolChunk`. -/
def procToolObj (st : StreamExtractionState) (o : Json) :
    StreamExtractionState × List Report :=
  let tool := toLowerStr (jsToString (firstTruthy [getField o "tool_name", getField o "name"]))
  let isAdd := (hasSub (("insert").data) tool || hasSub (("add").data) tool) &&
               (hasSub (("page").data) tool || hasSub (("slide").data) tool)
  if isAdd then
    let posFirst : Option Int :=
      match getField o "position" with
      | some v =>
        if v.isNull then none
        else match jsIndex0 v with
          | some e => jsToNumberOpt e
          | none => none
      | none => none
    let posPage : Option Int :=
      match getField o "page_index" with
      | some v => jsToNumberOpt v
      | none => none
    let numTruthy : Option Int → Option Int := fun x =>
      match x with
      | some n => if n = 0 then none else some n
      | none => none
    let pos : Int :=
      match numTruthy posFirst with
      | some n => n
      | none =>
        match numTruthy posPage with
        | some n => n
        | none => 1
    let raw := firstNonNullish [getField o "output_delta", getField o "delta",
                                getField o "output", getField o "html"]
    match raw with
    | .str s => if s ≠ [] then onToolChunk st pos s else (st, [])
    | _ => (st, [])
  else (st, [])

/-- One content part: the `type === "object"` tool branch followed by the
`type === "text"` assistant-text branch (the two are mutually exclusive
on the same `type` field, and parts are never null-dereferenced because
every access to them is guarded or optional-chained). -/
def procPart (st : StreamExtractionState) (part : Json) :
    StreamExtractionState × List Report :=
  let partType : Option Json :=
    if part.isNull then none else getField part "type"
  let (st1, reps) :=
    match partType with
    | some (.str t) =>
      if t = ("object").data then
        match getField part "object" with
        | some o => if jsTruthy o then procToolObj st o else (st, [])
        | none => (st, [])
      else (st, [])
    | _ => (st, [])
  let st2 :=
    match partType, getField part "text" with
    | some (.str t), some (.str txt) =>
      if t = ("text").data then { st1 with assistantBuf := st1.assistantBuf ++ txt } else st1
    | _, _ => st1
  (st2, reps)

/-- The `for (const part of asArray(msg.content))` loop over one message's
content parts. -/
def procParts (st : StreamExtractionState) (parts : List Json) :
    StreamExtractionState × List Report :=
  parts.foldl
    (fun acc p =>
      let (s2, r2) := procPart acc.1 p
      (s2, acc.2 ++ r2))
    (st, ([] : List Report))

/-- Walk the messages of one choice.  The final `Bool` is the thrown-flag:
`msg.content` is an unguarded access, so a `null` message element raises a
`TypeError` at that point, keeping all mutations made so far. -/
def walkMsgs : StreamExtractionState → List Json → StreamExtractionState × List Report × Bool
  | st, [] => (st, [], false)
  | st, m :: rest =>
    if m.isNull then (st, [], true)
    else
      let step := procParts st (asArray (getField m "content"))
      let (st2, r2, thr) := walkMsgs step.1 rest
      (st2, step.2 ++ r2, thr)

/-- Walk the choices.  `choice.messages` / `choice.message` are unguarded,
so a `null` choice element raises a `TypeError`. -/
def walkChoices : StreamExtractionState → List Json → StreamExtractionState × List Report × Bool
  | st, [] => (st, [], false)
  | st, c :: rest =>
    if c.isNull then (st, [], true)
    else
      let msgs := asArray (nullCoalesce (getField c "messages") (getField c "message"))
      let (st1, r1, th1) := walkMsgs st msgs
      if th1 then (st1, r1, true)
      else
        let (st2, r2, th2) := walkChoices st1 rest
        (st2, r1 ++ r2, th2)

/-- `walkEvent` from extractSlides.ts; the log sink is pure output and is
dropped from the model.  Returns the updated state, the `onPartial`
reports in emission order, and whether a `TypeError` was thrown
(`obj.choices` is an unguarded access on the payload itself). -/
def walkEvent (st : StreamExtractionState) (obj : Json) :
    StreamExtractionState × List Report × Bool :=
  if obj.isNull then (st, [], true)
  else
    let (st1, r1, th) := walkChoices st (asArray (getField obj "choices"))
    if th then (st1, r1, true)
    else
      let d := nullCoalesce (optChain (getField obj "output_text") "delta")
                            (getField obj "delta")
      let st2 :=
        match d with
        | some (.str s) =>
          if s ≠ [] then { st1 with assistantBuf := st1.assistantBuf ++ s } else st1
        | _ => st1
      (st2, r1, false)

/-
Slide assembly (finalizeSlides and the document-cutting regexes).
-/

/-- Stable insertion of one keyed entry, modelling
`entries.sort((a, b) => a[0] - b[0])` (a stable comparator sort; the keys
of a reachable `toolState` are unique, so the result is the unique
ascending order). -/
def insertByKey (x : Int × JsStr) : List (Int × JsStr) → List (Int × JsStr)
  | [] => [x]
  | y :: ys => if x.1 < y.1 then x :: y :: ys else y :: insertByKey x ys

def sortByKey : List (Int × JsStr) → List (Int × JsStr)
  | [] => []
  | x :: xs => insertByKey x (sortByKey xs)

/-- `HTML_DOC_RE ?? HTML_TAG_RE` followed by `.trim()`
(`cutFirstHtmlDoc`): the leftmost `<!doctype html ... </html>` span with a
non-greedy middle, else the leftmost `<html ... </html>` span, else
nothing. -/
def cutFirstHtmlDoc (s : JsStr) : Option JsStr :=
  let docPat := ("<!doctype html").data
  let tagPat := ("<html").data
  let closePat := ("</html>").data
  let tagTry : Option JsStr :=
    match findCI tagPat s with
    | some i =>
      match findCI closePat (s.drop (i + tagPat.length)) with
      | some j => some (jsTrim ((s.drop i).take (tagPat.length + j + closePat.length)))
      | none => none
    | none => none
  match findCI docPat s with
  | some i =>
    match findCI closePat (s.drop (i + docPat.length)) with
    | some j => some (jsTrim ((s.drop i).take (docPat.length + j + closePat.length)))
    | none => tagTry
  | none => tagTry

/-- The synthesized minimal document shell of `finalizeSlides`. -/
def shellHtml (pos : Int) (buf : JsStr) : JsStr :=
  ("<!doctype html><html><head><meta charset=\"utf-8\"><title>Slide ").data ++
    (toString pos).data ++ ("</title></head><body>").data ++ buf ++
    ("</body></html>").data

/-- The per-entry body of the `finalizeSlides` loop: strip residual fences,
cut the first complete document, else synthesize the minimal shell. -/
def sliceHtml (e : Int × JsStr) : Int × JsStr :=
  let buf := stripFences e.2
  (e.1,
    match cutFirstHtmlDoc buf with
    | some h => h
    | none => shellHtml e.1 buf)

/-- The `Object.entries(...).map(...).filter(...).sort(...)` pipeline of
`finalizeSlides`. -/
def finalizeEntries (st : StreamExtractionState) : List (Int × JsStr) :=
  sortByKey ((st.toolState.map (fun e => (e.1, e.2.buf))).filter
    (fun e => !(jsTrim e.2).isEmpty))

/-- `finalizeSlides` from extractSlides.ts. -/
def finalizeSlides (st : StreamExtractionState) : List (Int × JsStr) :=
  let slides := (finalizeEntries st).map sliceHtml
  if slides.isEmpty then
    match cutFirstHtmlDoc (stripFences st.assistantBuf) with
    | some h => [(1, h)]
    | none => []
  else slides

/-- The output record built by `callGlmAgent` from each finalized slide. -/
structure GeneratedSlide where
  pageNumber : Int
  html : JsStr
  draft : JsStr
  complete : Bool
deriving DecidableEq

/-- The `finalDeck.map(...)` step of `callGlmAgent`: every finalized slide
is emitted with `draft` equal to `html` and `complete` set to `true`. -/
def toGeneratedSlides (st : StreamExtractionState) : List GeneratedSlide :=
  (finalizeSlides st).map (fun s => ⟨s.1, s.2, s.2, true⟩)

/-
The SSE framer (sse.ts, createSSEParser).
-/

/-- An `SSEEvent` record; `retry` is stored through `Number(val) || undefined`
so a stored value is never zero. -/
structure SSEEvent where
  event : JsStr
  data : JsStr
  id : Option JsStr
  retry : Option Int
deriving DecidableEq

def freshEvent : SSEEvent := ⟨("message").data, [], none, none⟩

/-- JS truthiness of the `id` field (`undefined` and `""` are falsy). -/
def idTruthy : Option JsStr → Bool
  | none => false
  | some s => decide (s ≠ [])

/-- JS truthiness of the `retry` field. -/
def retryTruthy : Option Int → Bool
  | none => false
  | some r => decide (r ≠ 0)

/-- `dispatch()`: skip when the event has no data, id or retry; otherwise
emit a snapshot and reset the event in progress. -/
def dispatch (ev : SSEEvent) : SSEEvent × Option SSEEvent :=
  if ev.data = [] && !idTruthy ev.id && !retryTruthy ev.retry then (ev, none)
  else (freshEvent, some ev)

/-- Process one complete line of the feed loop: strip a trailing `\r`,
dispatch on a blank line, otherwise parse a `field[: value]` line. -/
def handleLine (ev : SSEEvent) (line0 : JsStr) : SSEEvent × Option SSEEvent :=
  let line := if line0.getLast? = some '\r' then line0.dropLast else line0
  if line = [] then dispatch ev
  else
    let field := line.takeWhile (· ≠ ':')
    let val0 : JsStr :=
      if field.length = line.length then [] else line.drop (field.length + 1)
    let val :=
      match val0 with
      | ' ' :: r => r
      | _ => val0
    if field = ("event").data then ({ ev with event := val }, none)
    else if field = ("data").data then
      ({ ev with data := ev.data ++ (if ev.data ≠ [] then ['\n'] else []) ++ val }, none)
    else if field = ("id").data then ({ ev with id := some val }, none)
    else if field = ("retry").data then
      ({ ev with retry :=
          match strToNumberOpt val with
          | some n => if n = 0 then none else some n
          | none => none }, none)
    else (ev, none)

/-- The line-splitting scan of `feed`: consume complete lines, accumulate
the trailing partial line.  (The source walks the buffer by `indexOf("\n")`;
this is the same scan one character at a time.) -/
def scanLines (ev : SSEEvent) (acc : JsStr) (outs : List SSEEvent) :
    JsStr → SSEEvent × JsStr × List SSEEvent
  | [] => (ev, acc, outs)
  | c :: cs =>
    if c = '\n' then
      match handleLine ev acc with
      | (ev2, d) => scanLines ev2 [] (outs ++ d.toList) cs
    else scanLines ev (acc ++ [c]) outs cs

/-- The framer's state between `feed` calls: the unconsumed buffer tail and
the event in progress. -/
structure FramerState where
  buffer : JsStr
  ev : SSEEvent
deriving DecidableEq

def initFramer : FramerState := ⟨[], freshEvent⟩

/-- `feed(chunk, opts)` from createSSEParser: append the chunk, consume
complete lines, and on `opts.flush` with a non-empty remainder append the
raw remainder to the data and force a dispatch.  Returns the new state and
the dispatched events in order. -/
def feed (st : FramerState) (chunk : JsStr) (flush : Bool) :
    FramerState × List SSEEvent :=
  match scanLines st.ev [] [] (st.buffer ++ chunk) with
  | (ev1, tail, outs) =>
    if flush && tail ≠ [] then
      let ev2 := { ev1 with data := ev1.data ++ (if ev1.data ≠ [] then ['\n'] else []) ++ tail }
      match dispatch ev2 with
      | (ev3, d) => (⟨[], ev3⟩, outs ++ d.toList)
    else (⟨tail, ev1⟩, outs)

/-- Feeding a string one character per `feed` call (no flush), collecting
all dispatched events. -/
def feedChars : FramerState → JsStr → FramerState × List SSEEvent
  | st, [] => (st, [])
  | st, c :: cs =>
    let (st1, o1) := feed st [c] false
    let (st2, o2) := feedChars st1 cs
    (st2, o1 ++ o2)

/-
The transport (glmApi.ts, callGlmAgent): the per-stream event callback
installed in `createSSEParser`, and the read loop that feeds chunks and
short-circuits on `[DONE]`.  `JSON.parse` is a host builtin, so the model
is parametrised over the decode function `parse` (`none` models a parse
exception, which the callback catches and logs).
-/

/-- Per-stream callback state: the seen-id set, the extraction state, the
`shouldBreakLoop` flag, and the resolved conversation id; `walked` is the
trace of framed events whose decoded payload was handed to `walkEvent`,
and `reports` the `onPartial` invocations, both in order. -/
structure TransportState where
  seen : List JsStr
  extraction : StreamExtractionState
  walked : List SSEEvent
  reports : List Report
  doneFlag : Bool
  convId : JsStr
deriving DecidableEq

def initTransport : TransportState := ⟨[], createExtractionState, [], [], false, []⟩

/-- The callback body after the dedup stage: the `[DONE]` check, the JSON
decode with its catch, the conversation-id capture and the `walkEvent`
call (whose partial mutations survive even when it throws). -/
def processBody (parse : JsStr → Option Json) (st : TransportState) (evt : SSEEvent) :
    TransportState :=
  if jsTrim evt.data = ("[DONE]").data then { st with doneFlag := true }
  else
    match parse evt.data with
    | none => st
    | some j =>
      let st1 :=
        match getField j "conversation_id" with
        | some cid =>
          if jsTruthy cid && st.convId.isEmpty then { st with convId := jsToString cid } else st
        | none => st
      match walkEvent st1.extraction j with
      | (ex2, reps, _thr) =>
        { st1 with extraction := ex2, walked := st1.walked ++ [evt],
                   reports := st1.reports ++ reps }

/-- The full callback: dedup on a truthy id against the seen-id set, then
the body.  Note the flag set by `[DONE]` does not gate the callback
itself; it is only consulted by the read loop between chunks. -/
def processEvent (parse : JsStr → Option Json) (st : TransportState) (evt : SSEEvent) :
    TransportState :=
  match evt.id with
  | some i =>
    if i = [] then processBody parse st evt
    else if i ∈ st.seen then st
    else processBody parse { st with seen := i :: st.seen } evt
  | none => processBody parse st evt

def processEvents (parse : JsStr → Option Json) (st : TransportState)
    (evts : List SSEEvent) : TransportState :=
  evts.foldl (processEvent parse) st

/-- Framer plus callback state, the state of one read loop. -/
structure RunState where
  framer : FramerState
  transport : TransportState
deriving DecidableEq

def initRun : RunState := ⟨initFramer, initTransport⟩

/-- Feed one decoded chunk to the framer and run the callback on every
event it dispatches, in order (the framer dispatches synchronously). -/
def processChunk (parse : JsStr → Option Json) (rs : RunState) (c : JsStr) : RunState :=
  match feed rs.framer c false with
  | (f2, evts) => ⟨f2, processEvents parse rs.transport evts⟩

/-- The read loop of `callGlmAgent`: read a chunk, feed it whole, then
break if the callback has seen `[DONE]`.  Returns the final state and the
list of chunks actually fed. -/
def readLoop (parse : JsStr → Option Json) (rs : RunState) :
    List JsStr → RunState × List JsStr
  | [] => (rs, [])
  | c :: rest =>
    let rs1 := processChunk parse rs c
    if rs1.transport.doneFlag then (rs1, [c])
    else
      let (rs2, fed) := readLoop parse rs1 rest
      (rs2, c :: fed)

/-- The whole stream consumption of `callGlmAgent`: the read loop over the
response chunks followed by the trailing `parse("", { flush: true })`. -/
def streamRun (parse : JsStr → Option Json) (chunks : List JsStr) :
    RunState × List JsStr :=
  let (rs, fed) := readLoop parse initRun chunks
  match feed rs.framer [] true with
  | (f2, evts) => (⟨f2, processEvents parse rs.transport evts⟩, fed)

/-- A concrete decode function agreeing with `JSON.parse` on the payloads
of the concrete streams below: the literal `1` parses to the number 1,
everything else fed to it fails. -/
def parseNumOne : JsStr → Option Json :=
  fun s => if s = ("1").data then some (.num 1) else none

/-
The retrying fetch wrapper (`debugFetch` in utils/debug.ts): up to
`retries` attempts, linear backoff, retry on 5xx responses and on
`TypeError` network errors.
-/

/-- One attempt's outcome at the `fetch` call: a response with a status, or
a thrown error with a `name`. -/
inductive FetchOutcome where
  | resp (status : Nat)
  | exc (name : String)
deriving DecidableEq

/-- How `debugFetch` terminates: return a response, re-throw a caught
error, or (only reachable when `retries = 0`) throw the fallback error
after the loop. -/
inductive DFResult where
  | returned (status : Nat)
  | thrown (name : String)
  | thrownLast (e : Option String)
deriving DecidableEq

structure DFRun where
  result : DFResult
  delays : List Nat
  attempts : Nat
deriving DecidableEq

/-- The `while (attempt < retries)` loop of `debugFetch`;
`remaining = retries - attempt` is the loop fuel.  A 5xx response retries
only while attempts remain, otherwise the response is returned; a
`TypeError` retries while attempts remain, otherwise the error is
re-thrown.  The backoff `1000 * (attempt - 1)` is awaited before every
attempt but the first. -/
def dfgo (outcomes : Nat → FetchOutcome) (retries : Nat) :
    Nat → Nat → Option String → List Nat → DFRun
  | 0, attempt, lastErr, delays => ⟨.thrownLast lastErr, delays, attempt⟩
  | remaining + 1, attempt, _lastErr, delays =>
    let a := attempt + 1
    let delays1 := if 1 < a then delays ++ [1000 * (a - 1)] else delays
    match outcomes a with
    | .resp status =>
      if !(200 ≤ status && status < 300) && 500 ≤ status && a < retries then
        dfgo outcomes retries remaining a (some ("Server error " ++ toString status)) delays1
      else ⟨.returned status, delays1, a⟩
    | .exc name =>
      if name = "TypeError" && a < retries then
        dfgo outcomes retries remaining a (some name) delays1
      else ⟨.thrown name, delays1, a⟩

/-- `debugFetch` as a function of its retry budget and the outcome of each
attempt (the agent call passes `retries: 3`). -/
def debugFetchRun (retries : Nat) (outcomes : Nat → FetchOutcome) : DFRun :=
  dfgo outcomes retries retries 0 none []

/-- The backoff waits performed when `n` attempts end up being made. -/
def expectedDelays (n : Nat) : List Nat :=
  (List.range (n - 1)).map (fun i => 1000 * (i + 1))

def allFive00 : Nat → FetchOutcome := fun _ => .resp 500

/-- A mixed run: a 500 on the first attempt, then 404s. -/
def mix500then404 : Nat → FetchOutcome := fun k => if k = 1 then .resp 500 else .resp 404

/-- The retry guard of `debugFetch`, as attempt `a` of `retries` sees the
outcome: a 5xx response or a network-class `TypeError`, with attempts
remaining.  An attempt whose outcome fails this guard is the run's last. -/
def isRetryStep (retries a : Nat) : FetchOutcome → Bool
  | .resp status => !(200 ≤ status && status < 300) && 500 ≤ status && a < retries
  | .exc name => name = "TypeError" && a < retries

/-- How a non-retried attempt outcome reaches the caller: a response is
returned, an exception is re-thrown. -/
def terminalResult : FetchOutcome → DFResult
  | .resp status => .returned status
  | .exc name => .thrown name

/-- The dedup predicate: does this framed event carry exactly the id `i`. -/
def idIs (i : JsStr) (e : SSEEvent) : Bool := decide (e.id = some i)

/-- The at-most-once invariant the dedup stage maintains over a stream:
relative to the events already processed (`past`), each non-empty id is in
the seen-id set exactly when some past event carried it, any walked event
carrying it is the first past event that carried it, at most one walked
event carries it, and none does while the id is still unseen. -/
def DedupInv (st : TransportState) (past : List SSEEvent) : Prop :=
  ∀ i : JsStr, i ≠ [] →
    ((i ∈ st.seen) ↔ ∃ e ∈ past, e.id = some i) ∧
    (∀ e ∈ st.walked, e.id = some i → past.find? (idIs i) = some e) ∧
    ((st.walked.filter (idIs i)).length ≤ 1) ∧
    (i ∉ st.seen → st.walked.filter (idIs i) = [])

/-
Theorems.
-/

theorem setPos_eq_of_lookup :
    ∀ (l : List (Int × ToolState)) (p : Int) (v : ToolState),
      lookupPos l p = some v → setPos l p v = l := by
  intro l
  induction l with
  | nil => intro p v h; simp [lookupPos] at h
  | cons hd tl ih =>
    intro p v h
    rcases hd with ⟨k, w⟩
    by_cases hk : k = p
    · subst hk
      simp [lookupPos] at h
      simp [setPos, h]
    · simp [lookupPos, hk] at h
      simp [setPos, hk, ih p v h]

/-- C1: on a cleaned chunk strictly longer than the last observed length
that does not start with a reset marker (and a slide not yet finalized),
`onToolChunk` appends exactly the new suffix `chunk[lastLen:]` to the
buffer and sets the length tracker to the full chunk length; in
particular, feeding the cumulative snapshots `"<html>AB"` then
`"<html>ABCD"` at one position leaves the buffer equal to
`"<html>ABCD"` with no duplicated `"AB"`. -/
theorem claim1_growth_appends_suffix :
    (∀ (ts : ToolState) (raw : JsStr),
      ts.finalized = false →
      startsReset (maybeDecodeJsonString (stripFences raw)) = false →
      ts.lastLen < (maybeDecodeJsonString (stripFences raw)).length →
      (toolStep ts raw).1.buf =
        ts.buf ++ (maybeDecodeJsonString (stripFences raw)).drop ts.lastLen ∧
      (toolStep ts raw).1.lastLen = (maybeDecodeJsonString (stripFences raw)).length) ∧
    ((onToolChunk (onToolChunk createExtractionState 1 (("<html>AB").data)).1 1
        (("<html>ABCD").data)).1).toolState =
      [(1, ⟨("<html>ABCD").data, 10, false⟩)] := by
  constructor
  · intro ts raw hfin hreset hlen
    have htail : (maybeDecodeJsonString (stripFences raw)).drop ts.lastLen ≠ [] := by
      intro hcon
      have := List.drop_eq_nil_iff.mp hcon
      omega
    simp only [toolStep, hfin, Bool.false_eq_true, if_false, hreset, hlen, if_pos, if_true,
      htail, if_neg, ne_eq, not_false_eq_true]
    split <;> simp
  · decide

theorem claim1_witness :
    ((⟨("xy").data, 2, false⟩ : ToolState).finalized = false) ∧
    (startsReset (maybeDecodeJsonString (stripFences (("xyzw").data))) = false) ∧
    ((⟨("xy").data, 2, false⟩ : ToolState).lastLen <
      (maybeDecodeJsonString (stripFences (("xyzw").data))).length) ∧
    ((toolStep ⟨("xy").data, 2, false⟩ (("xyzw").data)).1.buf =
      ("xy").data ++ (maybeDecodeJsonString (stripFences (("xyzw").data))).drop 2 ∧
     (toolStep ⟨("xy").data, 2, false⟩ (("xyzw").data)).1.lastLen =
      (maybeDecodeJsonString (stripFences (("xyzw").data))).length) :=
  ⟨by decide, by decide, by decide,
   claim1_growth_appends_suffix.1 ⟨("xy").data, 2, false⟩ (("xyzw").data)
     (by decide) (by decide) (by decide)⟩

/-- C2: once a position's state is finalized, every further chunk for that
position is a no-op — the per-position record is returned unchanged (so
the buffer is unchanged and `finalized` stays `true`), no `onPartial`
report is emitted, and the extraction state as a whole is unchanged. -/
theorem claim2_finalized_immutable :
    (∀ (ts : ToolState) (raw : JsStr), ts.finalized = true → toolStep ts raw = (ts, none)) ∧
    (∀ (st : StreamExtractionState) (pos : Int) (ts : ToolState) (raw : JsStr),
      lookupPos st.toolState pos = some ts → ts.finalized = true →
      onToolChunk st pos raw = (st, [])) := by
  constructor
  · intro ts raw h
    simp [toolStep, h]
  · intro st pos ts raw hl hf
    simp [onToolChunk, hl, toolStep, hf, setPos_eq_of_lookup _ _ _ hl]

theorem claim2_witness :
    (lookupPos ([(2, ⟨("<html></html>").data, 13, true⟩)] :
        List (Int × ToolState)) 2 = some ⟨("<html></html>").data, 13, true⟩) ∧
    ((⟨("<html></html>").data, 13, true⟩ : ToolState).finalized = true) ∧
    (onToolChunk ⟨[(2, ⟨("<html></html>").data, 13, true⟩)], []⟩ 2 (("extra").data) =
      (⟨[(2, ⟨("<html></html>").data, 13, true⟩)], []⟩, [])) :=
  ⟨by decide, by decide,
   claim2_finalized_immutable.2 ⟨[(2, ⟨("<html></html>").data, 13, true⟩)], []⟩ 2
     ⟨("<html></html>").data, 13, true⟩ (("extra").data) (by decide) (by decide)⟩

/-- C8 counterexample: feeding exactly `"data: partial"` and then flushing
dispatches one event, but its data is the raw remaining buffer
`"data: partial"`, not `"partial"` as the claim states. -/
theorem claim8_counterexample :
    (let r1 := feed initFramer (("data: partial").data) false
     let r2 := feed r1.1 [] true
     r1.2 ++ r2.2) ≠ [⟨("message").data, ("partial").data, none, none⟩] := by
  decide

/-- C8 amended: feeding exactly `"data: partial"` (no trailing newline) and
then calling with `flush: true` and no further input dispatches exactly one
event, whose data is the raw unconsumed buffer `"data: partial"` appended
verbatim (the flush path appends the remainder to the pending data without
line parsing, so the `data: ` field prefix is kept). -/
theorem claim8_amended :
    (let r1 := feed initFramer (("data: partial").data) false
     let r2 := feed r1.1 [] true
     r1.2 ++ r2.2) = [⟨("message").data, ("data: partial").data, none, none⟩] := by
  decide

/-- C10: every slide handed to `onComplete` has `complete = true` and
`draft` equal to `html`, whatever the extraction state was. -/
theorem claim10_complete_draft :
    ∀ (st : StreamExtractionState) (g : GeneratedSlide),
      g ∈ toGeneratedSlides st → g.complete = true ∧ g.draft = g.html := by
  intro st g hg
  simp only [toGeneratedSlides, List.mem_map] at hg
  obtain ⟨x, _, rfl⟩ := hg
  exact ⟨rfl, rfl⟩

theorem walkMsgs_no_throw :
    ∀ (l : List Json) (st : StreamExtractionState),
      (∀ m ∈ l, m.isNull = false) → (walkMsgs st l).2.2 = false := by
  intro l
  induction l with
  | nil => intro st _; simp [walkMsgs]
  | cons m rest ih =>
    intro st h
    have hm : m.isNull = false := h m (by simp)
    have hrec := ih (procParts st (asArray (getField m "content"))).1
      (fun x hx => h x (List.mem_cons_of_mem _ hx))
    rcases hq : walkMsgs (procParts st (asArray (getField m "content"))).1 rest
      with ⟨st2, r2, thr⟩
    rw [hq] at hrec
    simp only [walkMsgs, hm, Bool.false_eq_true, if_false, hq]
    exact hrec

theorem walkChoices_no_throw :
    ∀ (l : List Json) (st : StreamExtractionState),
      (∀ c ∈ l, c.isNull = false ∧
        ∀ m ∈ asArray (nullCoalesce (getField c "messages") (getField c "message")),
          m.isNull = false) →
      (walkChoices st l).2.2 = false := by
  intro l
  induction l with
  | nil => intro st _; simp [walkChoices]
  | cons c rest ih =>
    intro st h
    have hc : c.isNull = false := (h c (by simp)).1
    have hmsgs := (h c (by simp)).2
    have hth1 := walkMsgs_no_throw
      (asArray (nullCoalesce (getField c "messages") (getField c "message"))) st hmsgs
    rcases hq : walkMsgs st (asArray (nullCoalesce (getField c "messages") (getField c "message")))
      with ⟨st1, r1, th1⟩
    rw [hq] at hth1
    simp only at hth1
    subst hth1
    have hrec := ih st1 (fun x hx => h x (List.mem_cons_of_mem _ hx))
    rcases hq2 : walkChoices st1 rest with ⟨st2, r2, th2⟩
    rw [hq2] at hrec
    simp only [walkChoices, hc, Bool.false_eq_true, if_false, hq, hq2]
    exact hrec

/-- C9 counterexample: `walkEvent` is not total over every JSON-decodable
payload — the payload `null` (the JSON literal `null` decodes fine) makes
the unguarded `obj.choices` access throw a `TypeError`. -/
theorem claim9_counterexample :
    (walkEvent createExtractionState Json.null).2.2 = true := by decide

/-- C9 amended: `walkEvent` throws only on a `null` receiver of one of its
three unguarded accesses — the payload itself, an element of the
normalized `choices`, or an element of the normalized `messages`.  For
every other JSON-decodable payload it never throws: absent
`choices`/`messages`/`content` normalize to empty sequences (`asArray` of
an absent value is `[]`), and when the JSON-string repair of a delta fails
to parse, it falls back to literal replacement of `\n` and `\"` inside the
catch. -/
theorem claim9_amended :
    (∀ (st : StreamExtractionState) (obj : Json),
      obj.isNull = false →
      (∀ c ∈ asArray (getField obj "choices"), c.isNull = false ∧
        ∀ m ∈ asArray (nullCoalesce (getField c "messages") (getField c "message")),
          m.isNull = false) →
      (walkEvent st obj).2.2 = false) ∧
    (asArray none = []) ∧
    (∀ s : JsStr, (hasEscSeq s && !looksLikeHtmlTag s) = true → jsonStringBody? s = none →
      maybeDecodeJsonString s = replaceEscQ (replaceEscN s)) := by
  refine ⟨?_, rfl, ?_⟩
  · intro st obj h0 hch
    have hth := walkChoices_no_throw (asArray (getField obj "choices")) st hch
    rcases hq : walkChoices st (asArray (getField obj "choices")) with ⟨st1, r1, th⟩
    rw [hq] at hth
    simp only at hth
    subst hth
    simp only [walkEvent, h0, Bool.false_eq_true, if_false, hq]
  · intro s h1 h2
    simp [maybeDecodeJsonString, h1, h2]

theorem claim9_witness :
    ((Json.obj [("delta", Json.str (("hi").data))]).isNull = false) ∧
    (∀ c ∈ asArray (getField (Json.obj [("delta", Json.str (("hi").data))]) "choices"),
      c.isNull = false ∧
      ∀ m ∈ asArray (nullCoalesce (getField c "messages") (getField c "message")),
        m.isNull = false) ∧
    ((walkEvent createExtractionState (Json.obj [("delta", Json.str (("hi").data))])).2.2 =
      false) :=
  ⟨by decide, by decide,
   claim9_amended.1 createExtractionState (Json.obj [("delta", Json.str (("hi").data))])
     (by decide) (by decide)⟩

theorem claim10_witness :
    ((⟨1,
        ("<!doctype html><html><head><meta charset=\"utf-8\"><title>Slide 1</title></head><body>hello</body></html>").data,
        ("<!doctype html><html><head><meta charset=\"utf-8\"><title>Slide 1</title></head><body>hello</body></html>").data,
        true⟩ : GeneratedSlide) ∈
      toGeneratedSlides ⟨[(1, ⟨("hello").data, 5, false⟩)], []⟩) ∧
    ((⟨1,
        ("<!doctype html><html><head><meta charset=\"utf-8\"><title>Slide 1</title></head><body>hello</body></html>").data,
        ("<!doctype html><html><head><meta charset=\"utf-8\"><title>Slide 1</title></head><body>hello</body></html>").data,
        true⟩ : GeneratedSlide).complete = true ∧
      (⟨1,
        ("<!doctype html><html><head><meta charset=\"utf-8\"><title>Slide 1</title></head><body>hello</body></html>").data,
        ("<!doctype html><html><head><meta charset=\"utf-8\"><title>Slide 1</title></head><body>hello</body></html>").data,
        true⟩ : GeneratedSlide).draft =
      (⟨1,
        ("<!doctype html><html><head><meta charset=\"utf-8\"><title>Slide 1</title></head><body>hello</body></html>").data,
        ("<!doctype html><html><head><meta charset=\"utf-8\"><title>Slide 1</title></head><body>hello</body></html>").data,
        true⟩ : GeneratedSlide).html) :=
  ⟨by decide,
   claim10_complete_draft ⟨[(1, ⟨("hello").data, 5, false⟩)], []⟩ _ (by decide)⟩


theorem dfgo_attempts_le :
    ∀ (o : Nat → FetchOutcome) (r rem attempt : Nat) (le : Option String) (ds : List Nat),
      (dfgo o r rem attempt le ds).attempts ≤ attempt + rem := by
  intro o r rem
  induction rem with
  | zero => intro attempt le ds; simp [dfgo]
  | succ n ih =>
    intro attempt le ds
    simp only [dfgo]
    rcases o (attempt + 1) with s | nm
    · dsimp only
      split
      · calc (dfgo o r n (attempt + 1) _ _).attempts ≤ (attempt + 1) + n := ih ..
          _ = attempt + (n + 1) := by omega
      · simp
    · dsimp only
      split
      · calc (dfgo o r n (attempt + 1) _ _).attempts ≤ (attempt + 1) + n := ih ..
          _ = attempt + (n + 1) := by omega
      · simp

theorem expectedDelays_succ (a : Nat) :
    (if 1 < a + 1 then expectedDelays a ++ [1000 * a] else expectedDelays a) =
      expectedDelays (a + 1) := by
  cases a with
  | zero => simp [expectedDelays]
  | succ k =>
    simp only [Nat.lt_add_one_iff, if_pos (by omega : 1 < k + 1 + 1)]
    simp [expectedDelays, List.range_succ]

theorem dfgo_delays :
    ∀ (o : Nat → FetchOutcome) (r rem attempt : Nat) (le : Option String),
      (dfgo o r rem attempt le (expectedDelays attempt)).delays =
        expectedDelays (dfgo o r rem attempt le (expectedDelays attempt)).attempts := by
  intro o r rem
  induction rem with
  | zero => intro attempt le; simp [dfgo]
  | succ n ih =>
    intro attempt le
    simp only [dfgo]
    have hd : (if 1 < attempt + 1 then expectedDelays attempt ++ [1000 * (attempt + 1 - 1)]
        else expectedDelays attempt) = expectedDelays (attempt + 1) := by
      simpa using expectedDelays_succ attempt
    rcases o (attempt + 1) with s | nm
    · dsimp only
      rw [hd]
      split
      · exact ih (attempt + 1) _
      · rfl
    · dsimp only
      rw [hd]
      split
      · exact ih (attempt + 1) _
      · rfl

theorem dfgo_first_stop :
    ∀ (o : Nat → FetchOutcome) (r a : Nat) (rem attempt : Nat) (le : Option String)
      (ds : List Nat),
      attempt + rem = r →
      attempt < a → a ≤ r →
      (∀ k, attempt < k → k < a → isRetryStep r k (o k) = true) →
      isRetryStep r a (o a) = false →
      (dfgo o r rem attempt le ds).result = terminalResult (o a) ∧
      (dfgo o r rem attempt le ds).attempts = a := by
  intro o r a rem
  induction rem with
  | zero =>
    intro attempt le ds hsum hlt hle _ _
    omega
  | succ n ih =>
    intro attempt le ds hsum hlt hle hall hstop
    by_cases hae : attempt + 1 = a
    · rcases ho : o (attempt + 1) with s | nm
      · have hstop2 : (!(200 ≤ s && s < 300) && 500 ≤ s && decide (attempt + 1 < r)) =
            false := by
          rw [← hae, ho] at hstop
          simpa [isRetryStep] using hstop
        simp only [dfgo, ho]
        rw [if_neg (by rw [hstop2]; simp)]
        rw [← hae, ho]
        exact ⟨rfl, rfl⟩
      · have hstop2 : ((nm = "TypeError" : Bool) && decide (attempt + 1 < r)) = false := by
          rw [← hae, ho] at hstop
          simpa [isRetryStep] using hstop
        simp only [dfgo, ho]
        rw [if_neg (by rw [hstop2]; simp)]
        rw [← hae, ho]
        exact ⟨rfl, rfl⟩
    · have hlt1 : attempt + 1 < a := by omega
      have hretry := hall (attempt + 1) (by omega) hlt1
      rcases ho : o (attempt + 1) with s | nm
      · rw [ho] at hretry
        simp only [isRetryStep] at hretry
        simp only [dfgo, ho]
        rw [if_pos hretry]
        exact ih (attempt + 1) _ _ (by omega) hlt1 hle
          (fun k hk1 hk2 => hall k (by omega) hk2) hstop
      · rw [ho] at hretry
        simp only [isRetryStep] at hretry
        simp only [dfgo, ho]
        rw [if_pos hretry]
        exact ih (attempt + 1) _ _ (by omega) hlt1 hle
          (fun k hk1 hk2 => hall k (by omega) hk2) hstop

theorem isRetryStep_last :
    ∀ (retries : Nat) (out : FetchOutcome), isRetryStep retries retries out = false := by
  intro retries out
  rcases out with s | nm <;> simp [isRetryStep]

/-- C6 counterexample: with `retries = 3` and every attempt answering 500,
`debugFetch` makes 3 attempts with backoffs 1000ms and 2000ms and then
RETURNS the final 5xx response — the guard `attempt < retries` fails on
the last attempt, so no error is thrown, contradicting the claim that the
last error is re-thrown after exhausting all attempts. -/
theorem claim6_counterexample :
    debugFetchRun 3 allFive00 = ⟨DFResult.returned 500, [1000, 2000], 3⟩ := by decide

/-- C6 amended: the retrying fetch wrapper makes at most `retries`
attempts (3 for the agent call) and waits `1000ms * (attempt - 1)` before
each retry.  For an arbitrary sequence of attempt outcomes, the run stops
at the first attempt whose outcome fails the retry guard — a 5xx response
or a network-class `TypeError` with attempts remaining — and every run
with a positive budget has such an attempt: any non-5xx response
(including 4xx) is returned immediately at the attempt it occurs with no
further retry, any non-`TypeError` error (e.g. an abort) is thrown
immediately, a final-attempt `TypeError` re-throws that last error, and a
final-attempt 5xx returns that 5xx RESPONSE to the caller (not a thrown
error). -/
theorem claim6_amended :
    (∀ (retries : Nat) (outcomes : Nat → FetchOutcome),
      (debugFetchRun retries outcomes).attempts ≤ retries) ∧
    (∀ (retries : Nat) (outcomes : Nat → FetchOutcome),
      (debugFetchRun retries outcomes).delays =
        expectedDelays (debugFetchRun retries outcomes).attempts) ∧
    (∀ (retries : Nat) (outcomes : Nat → FetchOutcome) (a : Nat),
      1 ≤ a → a ≤ retries →
      (∀ k, 1 ≤ k → k < a → isRetryStep retries k (outcomes k) = true) →
      isRetryStep retries a (outcomes a) = false →
      (debugFetchRun retries outcomes).result = terminalResult (outcomes a) ∧
      (debugFetchRun retries outcomes).attempts = a) ∧
    (∀ (retries : Nat) (outcomes : Nat → FetchOutcome),
      1 ≤ retries →
      ∃ a, 1 ≤ a ∧ a ≤ retries ∧
        (∀ k, 1 ≤ k → k < a → isRetryStep retries k (outcomes k) = true) ∧
        isRetryStep retries a (outcomes a) = false ∧
        (debugFetchRun retries outcomes).result = terminalResult (outcomes a) ∧
        (debugFetchRun retries outcomes).attempts = a) := by
  have hchar : ∀ (retries : Nat) (outcomes : Nat → FetchOutcome) (a : Nat),
      1 ≤ a → a ≤ retries →
      (∀ k, 1 ≤ k → k < a → isRetryStep retries k (outcomes k) = true) →
      isRetryStep retries a (outcomes a) = false →
      (debugFetchRun retries outcomes).result = terminalResult (outcomes a) ∧
      (debugFetchRun retries outcomes).attempts = a := by
    intro retries outcomes a h1 hle hall hstop
    exact dfgo_first_stop outcomes retries a retries 0 none [] (by omega) (by omega) hle
      (fun k hk1 hk2 => hall k (by omega) hk2) hstop
  refine ⟨?_, ?_, hchar, ?_⟩
  · intro r o
    simpa using dfgo_attempts_le o r r 0 none []
  · intro r o
    have h := dfgo_delays o r r 0 none
    simpa [expectedDelays] using h
  · intro retries outcomes h1
    have hex : ∃ a, 1 ≤ a ∧ a ≤ retries ∧
        isRetryStep retries a (outcomes a) = false :=
      ⟨retries, h1, Nat.le_refl _, isRetryStep_last retries (outcomes retries)⟩
    have hspec := Nat.find_spec hex
    have hall : ∀ k, 1 ≤ k → k < Nat.find hex →
        isRetryStep retries k (outcomes k) = true := by
      intro k hk1 hk2
      cases hb : isRetryStep retries k (outcomes k)
      · exact absurd ⟨hk1, by omega, hb⟩ (Nat.find_min hex hk2)
      · rfl
    obtain ⟨hres, hatt⟩ := hchar retries outcomes (Nat.find hex) hspec.1 hspec.2.1 hall
      hspec.2.2
    exact ⟨Nat.find hex, hspec.1, hspec.2.1, hall, hspec.2.2, hres, hatt⟩

theorem claim6_witness :
    ((1 : Nat) ≤ 2) ∧ ((2 : Nat) ≤ 3) ∧
    (isRetryStep 3 1 (mix500then404 1) = true) ∧
    (isRetryStep 3 2 (mix500then404 2) = false) ∧
    ((debugFetchRun 3 mix500then404).result = terminalResult (mix500then404 2) ∧
      (debugFetchRun 3 mix500then404).attempts = 2) :=
  ⟨by decide, by decide, by decide, by decide,
   claim6_amended.2.2.1 3 mix500then404 2 (by decide) (by decide)
     (by
       intro k hk1 hk2
       have hk : k = 1 := by omega
       subst hk
       decide)
     (by decide)⟩


theorem scanLines_append :
    ∀ (b s : JsStr) (ev : SSEEvent) (acc : JsStr) (outs : List SSEEvent),
      scanLines ev acc outs (b ++ s) =
        (match scanLines ev acc outs b with
         | (e, a, o) => scanLines e a o s) := by
  intro b
  induction b with
  | nil => intro s ev acc outs; simp [scanLines]
  | cons c cs ih =>
    intro s ev acc outs
    by_cases hc : c = '\n'
    · subst hc
      simp only [List.cons_append, scanLines, if_pos rfl]
      rcases handleLine ev acc with ⟨ev2, d⟩
      exact ih s ev2 [] (outs ++ d.toList)
    · simp only [List.cons_append, scanLines, hc, if_false, if_neg hc]
      exact ih s ev (acc ++ [c]) outs

theorem scanLines_outs :
    ∀ (l : JsStr) (ev : SSEEvent) (acc : JsStr) (outs : List SSEEvent),
      scanLines ev acc outs l =
        (match scanLines ev acc [] l with
         | (e, a, o) => (e, a, outs ++ o)) := by
  intro l
  induction l with
  | nil => intro ev acc outs; simp [scanLines]
  | cons c cs ih =>
    intro ev acc outs
    by_cases hc : c = '\n'
    · subst hc
      simp only [scanLines, if_pos rfl]
      rcases handleLine ev acc with ⟨ev2, d⟩
      rw [ih ev2 [] (outs ++ d.toList), ih ev2 [] ([] ++ d.toList)]
      rcases scanLines ev2 [] [] cs with ⟨e, a, o⟩
      simp
    · simp only [scanLines, hc, if_false, if_neg hc]
      exact ih ev (acc ++ [c]) outs

theorem scanLines_nonl :
    ∀ (a : JsStr), (∀ c ∈ a, c ≠ '\n') →
      ∀ (s : JsStr) (ev : SSEEvent) (acc : JsStr) (outs : List SSEEvent),
        scanLines ev acc outs (a ++ s) = scanLines ev (acc ++ a) outs s := by
  intro a
  induction a with
  | nil => intro _ s ev acc outs; simp
  | cons c cs ih =>
    intro h s ev acc outs
    have hc : c ≠ '\n' := h c (by simp)
    simp only [List.cons_append, scanLines, if_neg hc]
    have h2 := ih (fun x hx => h x (List.mem_cons_of_mem _ hx)) s ev (acc ++ [c]) outs
    simpa using h2

theorem scanLines_acc_nonl :
    ∀ (l : JsStr) (ev : SSEEvent) (acc : JsStr) (outs : List SSEEvent),
      (∀ c ∈ acc, c ≠ '\n') →
      ∀ c ∈ (scanLines ev acc outs l).2.1, c ≠ '\n' := by
  intro l
  induction l with
  | nil => intro ev acc outs h; simpa [scanLines] using h
  | cons c cs ih =>
    intro ev acc outs h
    by_cases hc : c = '\n'
    · subst hc
      simp only [scanLines, if_pos rfl]
      rcases handleLine ev acc with ⟨ev2, d⟩
      exact ih ev2 [] (outs ++ d.toList) (by simp)
    · simp only [scanLines, hc, if_false, if_neg hc]
      refine ih ev (acc ++ [c]) outs ?_
      intro x hx
      rcases List.mem_append.mp hx with h1 | h1
      · exact h x h1
      · simp at h1
        subst h1
        exact hc

theorem feed_append (st : FramerState) (c1 c2 : JsStr) :
    feed st (c1 ++ c2) false =
      (match feed st c1 false with
       | (st1, o1) =>
         match feed st1 c2 false with
         | (st2, o2) => (st2, o1 ++ o2)) := by
  rcases h1 : scanLines st.ev [] [] (st.buffer ++ c1) with ⟨e1, a1, o1⟩
  have ha1 : ∀ c ∈ a1, c ≠ '\n' := by
    have h := scanLines_acc_nonl (st.buffer ++ c1) st.ev [] [] (by simp)
    rw [h1] at h
    exact h
  rcases h2 : scanLines e1 a1 [] c2 with ⟨e2, a2, o2⟩
  have hL : scanLines st.ev [] [] (st.buffer ++ (c1 ++ c2)) = (e2, a2, o1 ++ o2) := by
    rw [← List.append_assoc, scanLines_append, h1]
    show scanLines e1 a1 o1 c2 = (e2, a2, o1 ++ o2)
    rw [scanLines_outs, h2]
  have hR : scanLines e1 [] [] (a1 ++ c2) = (e2, a2, o2) := by
    rw [scanLines_nonl a1 ha1 c2 e1 [] []]
    simpa using h2
  have hLHS : feed st (c1 ++ c2) false = (⟨a2, e2⟩, o1 ++ o2) := by
    simp [feed, hL]
  have hR1 : feed st c1 false = (⟨a1, e1⟩, o1) := by
    simp [feed, h1]
  have hR2 : feed ⟨a1, e1⟩ c2 false = (⟨a2, e2⟩, o2) := by
    simp only [feed]
    dsimp only
    rw [hR]
    simp
  rw [hLHS, hR1]
  simp [hR2]

theorem feedChars_eq_feed :
    ∀ (s : JsStr) (st : FramerState), (∀ c ∈ st.buffer, c ≠ '\n') →
      feedChars st s = feed st s false := by
  intro s
  induction s with
  | nil =>
    intro st h
    have h2 : scanLines st.ev [] [] (st.buffer ++ []) = (st.ev, st.buffer, []) := by
      rw [scanLines_nonl st.buffer h [] st.ev [] []]
      simp [scanLines]
    simp only [feedChars, feed, h2]
    simp
  | cons c cs ih =>
    intro st h
    rcases hf : feed st [c] false with ⟨st1, o1⟩
    have hb1 : ∀ x ∈ st1.buffer, x ≠ '\n' := by
      rcases hs : scanLines st.ev [] [] (st.buffer ++ [c]) with ⟨e1, a1, o⟩
      have h0 := scanLines_acc_nonl (st.buffer ++ [c]) st.ev [] [] (by simp)
      rw [hs] at h0
      have hst1 : st1.buffer = a1 := by
        simp only [feed, hs] at hf
        simp at hf
        rw [← hf.1]
      rw [hst1]
      exact h0
    have happ := feed_append st [c] cs
    simp only [List.singleton_append] at happ
    rw [show feedChars st (c :: cs) =
        (match feedChars st1 cs with
         | (st2, o2) => (st2, o1 ++ o2)) from by simp [feedChars, hf]]
    rw [ih st1 hb1]
    rw [happ, hf]

/-- C3: the SSE framer is insensitive to chunk boundaries — from any state
whose buffer holds no newline (every reachable state), feeding a string one
character per `feed` call dispatches the identical event sequence and ends
in the identical state as feeding it in a single call; in particular
`"id: 1\ndata: foo\ndata: bar\n\n"` yields exactly one event
`{id: "1", event: "message", data: "foo\nbar"}` either way. -/
theorem claim3_framer_chunk_insensitive :
    (∀ (st : FramerState) (s : JsStr), '\n' ∉ st.buffer →
      feedChars st s = feed st s false) ∧
    (feed initFramer (("id: 1\ndata: foo\ndata: bar\n\n").data) false =
      (initFramer, [⟨("message").data, ("foo\nbar").data, some (("1").data), none⟩])) ∧
    (feedChars initFramer (("id: 1\ndata: foo\ndata: bar\n\n").data) =
      (initFramer, [⟨("message").data, ("foo\nbar").data, some (("1").data), none⟩])) := by
  have hmain : ∀ (st : FramerState) (s : JsStr), '\n' ∉ st.buffer →
      feedChars st s = feed st s false := by
    intro st s h
    exact feedChars_eq_feed s st (fun c hc he => h (he ▸ hc))
  refine ⟨hmain, by decide, ?_⟩
  rw [hmain initFramer _ (by decide)]
  decide

theorem claim3_witness :
    ('\n' ∉ initFramer.buffer) ∧
    (feedChars initFramer (("data: a\ndata: b\n\n").data) =
      feed initFramer (("data: a\ndata: b\n\n").data) false) :=
  ⟨by decide,
   claim3_framer_chunk_insensitive.1 initFramer (("data: a\ndata: b\n\n").data) (by decide)⟩

theorem processBody_spec :
    ∀ (parse : JsStr → Option Json) (st : TransportState) (evt : SSEEvent),
      (processBody parse st evt).seen = st.seen ∧
      ((processBody parse st evt).walked = st.walked ∨
       (processBody parse st evt).walked = st.walked ++ [evt]) := by
  intro parse st evt
  simp only [processBody]
  split
  · exact ⟨rfl, Or.inl rfl⟩
  · split
    · exact ⟨rfl, Or.inl rfl⟩
    · split <;> (try split) <;> exact ⟨rfl, Or.inr rfl⟩

theorem dedupInv_body_skip :
    ∀ (parse : JsStr → Option Json) (st : TransportState) (evt : SSEEvent)
      (past : List SSEEvent),
      DedupInv st past → (∀ i : JsStr, i ≠ [] → idIs i evt = false) →
      DedupInv (processBody parse st evt) (past ++ [evt]) := by
  intro parse st evt past h hirr
  have hb := processBody_spec parse st evt
  intro i hi
  obtain ⟨hseen, hfind, hlen, hemp⟩ := h i hi
  have hnot : idIs i evt = false := hirr i hi
  have hidne : evt.id ≠ some i := by
    intro hcon
    rw [show idIs i evt = true by simp [idIs, hcon]] at hnot
    cases hnot
  refine ⟨?_, ?_, ?_, ?_⟩
  · rw [hb.1]
    constructor
    · intro hin
      obtain ⟨e, he, hei⟩ := hseen.mp hin
      exact ⟨e, List.mem_append_left _ he, hei⟩
    · rintro ⟨e, he, hei⟩
      rcases List.mem_append.mp he with h1 | h1
      · exact hseen.mpr ⟨e, h1, hei⟩
      · simp at h1; subst h1; exact absurd hei hidne
  · intro e he hei
    have hef : past.find? (idIs i) = some e := by
      rcases hb.2 with hw | hw
      · rw [hw] at he; exact hfind e he hei
      · rw [hw] at he
        rcases List.mem_append.mp he with h1 | h1
        · exact hfind e h1 hei
        · simp at h1; subst h1; exact absurd hei hidne
    rw [List.find?_append, hef]; rfl
  · rcases hb.2 with hw | hw
    · rw [hw]; exact hlen
    · rw [hw, List.filter_append]
      simpa [List.filter, hnot] using hlen
  · intro hnin
    rw [hb.1] at hnin
    rcases hb.2 with hw | hw
    · rw [hw]; exact hemp hnin
    · rw [hw, List.filter_append]
      simp [List.filter, hnot, hemp hnin]

theorem dedupInv_drop :
    ∀ (st : TransportState) (evt : SSEEvent) (past : List SSEEvent) (i0 : JsStr),
      DedupInv st past → evt.id = some i0 → i0 ≠ [] → i0 ∈ st.seen →
      DedupInv st (past ++ [evt]) := by
  intro st evt past i0 h hid hi0 hin0
  intro i hi
  obtain ⟨hseen, hfind, hlen, hemp⟩ := h i hi
  refine ⟨?_, ?_, ?_, ?_⟩
  · constructor
    · intro hin
      obtain ⟨e, he, hei⟩ := hseen.mp hin
      exact ⟨e, List.mem_append_left _ he, hei⟩
    · rintro ⟨e, he, hei⟩
      rcases List.mem_append.mp he with h1 | h1
      · exact hseen.mpr ⟨e, h1, hei⟩
      · simp at h1; subst h1
        rw [hid] at hei
        injection hei with hh
        rw [← hh]
        exact hin0
  · intro e he hei
    rw [List.find?_append, hfind e he hei]; rfl
  · exact hlen
  · exact hemp

theorem dedupInv_fresh :
    ∀ (parse : JsStr → Option Json) (st : TransportState) (evt : SSEEvent)
      (past : List SSEEvent) (i0 : JsStr),
      DedupInv st past → evt.id = some i0 → i0 ≠ [] → i0 ∉ st.seen →
      DedupInv (processBody parse { st with seen := i0 :: st.seen } evt) (past ++ [evt]) := by
  intro parse st evt past i0 h hid hi0 hnin0
  have hb := processBody_spec parse { st with seen := i0 :: st.seen } evt
  intro i hi
  obtain ⟨hseen, hfind, hlen, hemp⟩ := h i hi
  by_cases hii : i = i0
  · subst hii
    have hpastnone : past.find? (idIs i) = none := by
      rw [List.find?_eq_none]
      intro x hx hpx
      have hxid : x.id = some i := by simpa [idIs] using hpx
      exact hnin0 (hseen.mpr ⟨x, hx, hxid⟩)
    have hfilt : st.walked.filter (idIs i) = [] := hemp hnin0
    refine ⟨?_, ?_, ?_, ?_⟩
    · rw [hb.1]
      simp only [List.mem_cons]
      constructor
      · intro _
        exact ⟨evt, List.mem_append_right _ (by simp), by rw [hid]⟩
      · intro _
        exact Or.inl trivial
    · intro e he hei
      have hnomem : ∀ x ∈ st.walked, x.id = some i → False := by
        intro x hx hxi
        have hmem : x ∈ st.walked.filter (idIs i) :=
          List.mem_filter.mpr ⟨hx, by simp [idIs, hxi]⟩
        rw [hfilt] at hmem
        cases hmem
      rcases hb.2 with hw | hw
      · rw [hw] at he
        exact absurd hei (fun hc => hnomem e he hc)
      · rw [hw] at he
        rcases List.mem_append.mp he with h1 | h1
        · exact absurd hei (fun hc => hnomem e h1 hc)
        · simp at h1; subst h1
          rw [List.find?_append, hpastnone]
          simp [List.find?, idIs, hid]
    · rcases hb.2 with hw | hw
      · rw [hw]; exact hlen
      · rw [hw, List.filter_append, hfilt]
        simp [List.filter, idIs, hid]
    · intro hnin
      rw [hb.1] at hnin
      exact absurd (List.mem_cons_self _ _) hnin
  · have hnot : idIs i evt = false := by
      simp only [idIs, hid, decide_eq_false_iff_not]
      intro hcon
      injection hcon with hh
      exact hii hh.symm
    have hidne : evt.id ≠ some i := by
      intro hcon
      rw [show idIs i evt = true by simp [idIs, hcon]] at hnot
      cases hnot
    refine ⟨?_, ?_, ?_, ?_⟩
    · rw [hb.1]
      simp only [List.mem_cons]
      constructor
      · intro hin
        rcases hin with h1 | h1
        · exact absurd h1 hii
        · obtain ⟨e, he, hei⟩ := hseen.mp h1
          exact ⟨e, List.mem_append_left _ he, hei⟩
      · rintro ⟨e, he, hei⟩
        rcases List.mem_append.mp he with h1 | h1
        · exact Or.inr (hseen.mpr ⟨e, h1, hei⟩)
        · simp at h1; subst h1; exact absurd hei hidne
    · intro e he hei
      have hef : past.find? (idIs i) = some e := by
        rcases hb.2 with hw | hw
        · rw [hw] at he; exact hfind e he hei
        · rw [hw] at he
          rcases List.mem_append.mp he with h1 | h1
          · exact hfind e h1 hei
          · simp at h1; subst h1; exact absurd hei hidne
      rw [List.find?_append, hef]; rfl
    · rcases hb.2 with hw | hw
      · rw [hw]; exact hlen
      · rw [hw, List.filter_append]
        simpa [List.filter, hnot] using hlen
    · intro hnin
      rw [hb.1] at hnin
      have hninseen : i ∉ st.seen := fun hc => hnin (List.mem_cons_of_mem _ hc)
      rcases hb.2 with hw | hw
      · rw [hw]; exact hemp hninseen
      · rw [hw, List.filter_append]
        simp [List.filter, hnot, hemp hninseen]

theorem dedupInv_step :
    ∀ (parse : JsStr → Option Json) (st : TransportState) (evt : SSEEvent)
      (past : List SSEEvent),
      DedupInv st past → DedupInv (processEvent parse st evt) (past ++ [evt]) := by
  intro parse st evt past h
  rcases hid : evt.id with _ | i0
  · have hpe : processEvent parse st evt = processBody parse st evt := by
      simp [processEvent, hid]
    rw [hpe]
    refine dedupInv_body_skip parse st evt past h ?_
    intro i _
    simp [idIs, hid]
  · by_cases h0 : i0 = []
    · subst h0
      have hpe : processEvent parse st evt = processBody parse st evt := by
        simp [processEvent, hid]
      rw [hpe]
      refine dedupInv_body_skip parse st evt past h ?_
      intro i hi
      simp only [idIs, hid, decide_eq_false_iff_not]
      intro hcon
      injection hcon with hh
      exact hi hh.symm
    · by_cases hseen0 : i0 ∈ st.seen
      · have hpe : processEvent parse st evt = st := by
          simp [processEvent, hid, h0, hseen0]
        rw [hpe]
        exact dedupInv_drop st evt past i0 h hid h0 hseen0
      · have hpe : processEvent parse st evt =
            processBody parse { st with seen := i0 :: st.seen } evt := by
          simp [processEvent, hid, h0, hseen0]
        rw [hpe]
        exact dedupInv_fresh parse st evt past i0 h hid h0 hseen0

theorem dedupInv_fold :
    ∀ (parse : JsStr → Option Json) (evts : List SSEEvent) (st : TransportState)
      (past : List SSEEvent),
      DedupInv st past → DedupInv (processEvents parse st evts) (past ++ evts) := by
  intro parse evts
  induction evts with
  | nil => intro st past h; simpa [processEvents] using h
  | cons e rest ih =>
    intro st past h
    have h1 := dedupInv_step parse st e past h
    have h2 := ih (processEvent parse st e) (past ++ [e]) h1
    simpa [processEvents, List.foldl_cons] using h2

theorem dedupInv_init : DedupInv initTransport [] := by
  intro i hi
  refine ⟨?_, ?_, ?_, ?_⟩ <;> simp [initTransport, List.find?]

/-- C4: among all framed SSE events carrying the same non-empty id, only
the first can reach the Extraction State Machine — any event handed to
`walkEvent` that carries id `i` is the first event of the stream carrying
`i`, and at most one such event is ever walked; a repeat id is dropped by
the per-stream seen-id set before `walkEvent` is invoked. -/
theorem claim4_dedup_first_only :
    ∀ (parse : JsStr → Option Json) (evts : List SSEEvent) (i : JsStr) (e : SSEEvent),
      i ≠ [] →
      e ∈ (processEvents parse initTransport evts).walked →
      e.id = some i →
      evts.find? (idIs i) = some e ∧
      ((processEvents parse initTransport evts).walked.filter (idIs i)).length ≤ 1 := by
  intro parse evts i e hi he hei
  have h := dedupInv_fold parse evts initTransport [] dedupInv_init
  simp only [List.nil_append] at h
  obtain ⟨_, hfind, hlen, _⟩ := h i hi
  exact ⟨hfind e he hei, hlen⟩

theorem claim4_witness :
    ((("a").data : JsStr) ≠ []) ∧
    ((⟨("message").data, ("1").data, some (("a").data), none⟩ : SSEEvent) ∈
      (processEvents parseNumOne initTransport
        [⟨("message").data, ("1").data, some (("a").data), none⟩,
         ⟨("message").data, ("1").data, some (("a").data), none⟩]).walked) ∧
    ((⟨("message").data, ("1").data, some (("a").data), none⟩ : SSEEvent).id =
      some (("a").data)) ∧
    ([(⟨("message").data, ("1").data, some (("a").data), none⟩ : SSEEvent),
      ⟨("message").data, ("1").data, some (("a").data), none⟩].find? (idIs (("a").data)) =
        some ⟨("message").data, ("1").data, some (("a").data), none⟩ ∧
     ((processEvents parseNumOne initTransport
        [⟨("message").data, ("1").data, some (("a").data), none⟩,
         ⟨("message").data, ("1").data, some (("a").data), none⟩]).walked.filter
          (idIs (("a").data))).length ≤ 1) :=
  ⟨by decide, by decide, by decide,
   claim4_dedup_first_only parseNumOne
     [⟨("message").data, ("1").data, some (("a").data), none⟩,
      ⟨("message").data, ("1").data, some (("a").data), none⟩]
     (("a").data) ⟨("message").data, ("1").data, some (("a").data), none⟩
     (by decide) (by decide) (by decide)⟩

/-- C5 counterexample: a single chunk carrying a `[DONE]` event followed by
another event; the break flag is only consulted by the read loop after the
whole chunk has been parsed, so the later event still reaches `walkEvent` —
the walked trace is non-empty after `[DONE]`, refuting "no later event
reaches the Extraction State Machine". -/
theorem claim5_counterexample :
    (streamRun parseNumOne [("data: [DONE]\n\ndata: 1\n\n").data]).1.transport.doneFlag =
        true ∧
      (streamRun parseNumOne
          [("data: [DONE]\n\ndata: 1\n\n").data]).1.transport.walked =
        [⟨("message").data, ("1").data, none, none⟩] := by
  constructor
  · decide
  · decide

/-- C5 amended: once a `[DONE]` event has been dispatched while parsing a
chunk, the read loop is short-circuited at the chunk level — the fed
chunks form a prefix of the stream, the final state is exactly the fold
over that prefix (so chunks after the break contribute nothing), the loop
runs to the end only when the flag was never set, and the flag was not yet
set after any proper prefix of the fed chunks (the loop stops at the first
flag-setting chunk).  However, events after `[DONE]` *within the same
chunk* (and the final flush) may still reach the Extraction State Machine,
as the counterexample shows. -/
theorem claim5_amended :
    ∀ (parse : JsStr → Option Json) (chunks : List JsStr) (rs : RunState),
      rs.transport.doneFlag = false →
      (∃ k, (readLoop parse rs chunks).2 = chunks.take k) ∧
      ((readLoop parse rs chunks).1 =
        (readLoop parse rs chunks).2.foldl (processChunk parse) rs) ∧
      ((readLoop parse rs chunks).1.transport.doneFlag = false →
        (readLoop parse rs chunks).2 = chunks) ∧
      (∀ j, j < (readLoop parse rs chunks).2.length →
        (((readLoop parse rs chunks).2.take j).foldl
          (processChunk parse) rs).transport.doneFlag = false) := by
  intro parse chunks
  induction chunks with
  | nil =>
    intro rs _
    refine ⟨⟨0, rfl⟩, rfl, fun _ => rfl, ?_⟩
    intro j hj
    simp [readLoop] at hj
  | cons c rest ih =>
    intro rs h
    by_cases hflag : (processChunk parse rs c).transport.doneFlag = true
    · have hr : readLoop parse rs (c :: rest) = (processChunk parse rs c, [c]) := by
        simp [readLoop, hflag]
      rw [hr]
      refine ⟨⟨1, by simp⟩, by simp, ?_, ?_⟩
      · intro hcon
        simp at hcon
        rw [hflag] at hcon
        cases hcon
      · intro j hj
        simp at hj
        subst hj
        simpa using h
    · have hflag2 : (processChunk parse rs c).transport.doneFlag = false := by
        simpa using hflag
      obtain ⟨⟨k, hk⟩, hfold, hdone, hpre⟩ := ih (processChunk parse rs c) hflag2
      have hr : readLoop parse rs (c :: rest) =
          ((readLoop parse (processChunk parse rs c) rest).1,
            c :: (readLoop parse (processChunk parse rs c) rest).2) := by
        simp [readLoop, hflag2]
      rw [hr]
      refine ⟨⟨k + 1, by simp [hk]⟩, by simpa using hfold, fun hd => by simp [hdone hd], ?_⟩
      intro j hj
      cases j with
      | zero => simpa using h
      | succ j2 =>
        simp only [List.take_succ_cons, List.foldl_cons]
        exact hpre j2 (by simpa using hj)

theorem claim5_witness :
    (initRun.transport.doneFlag = false) ∧
    ((readLoop parseNumOne initRun
        [("data: [DONE]\n\n").data, ("data: 1\n\n").data]).1 =
      (readLoop parseNumOne initRun
        [("data: [DONE]\n\n").data, ("data: 1\n\n").data]).2.foldl
          (processChunk parseNumOne) initRun) :=
  ⟨by decide,
   (claim5_amended parseNumOne [("data: [DONE]\n\n").data, ("data: 1\n\n").data]
     initRun (by decide)).2.1⟩

theorem mem_insertByKey :
    ∀ (x a : Int × JsStr) (l : List (Int × JsStr)),
      a ∈ insertByKey x l ↔ a = x ∨ a ∈ l := by
  intro x a l
  induction l with
  | nil => simp [insertByKey]
  | cons y ys ih =>
    by_cases hxy : x.1 < y.1
    · simp [insertByKey, hxy]
    · simp [insertByKey, hxy, ih]
      tauto

theorem mem_sortByKey :
    ∀ (l : List (Int × JsStr)) (a : Int × JsStr), a ∈ sortByKey l ↔ a ∈ l := by
  intro l
  induction l with
  | nil => simp [sortByKey]
  | cons x xs ih =>
    intro a
    simp [sortByKey, mem_insertByKey, ih]

theorem isPrefixCI_append :
    ∀ (p a b : JsStr), isPrefixCI p a = true → isPrefixCI p (a ++ b) = true := by
  intro p
  induction p with
  | nil => intro a b _; rfl
  | cons c cs ih =>
    intro a b h
    cases a with
    | nil => cases h
    | cons d ds =>
      simp only [isPrefixCI, Bool.and_eq_true] at h
      simp only [List.cons_append, isPrefixCI, Bool.and_eq_true]
      exact ⟨h.1, ih ds b h.2⟩

theorem hasCI_append_right :
    ∀ (p m b : JsStr), hasCI p m = true → hasCI p (m ++ b) = true := by
  intro p m
  induction m with
  | nil =>
    intro b h
    simp only [hasCI] at h
    cases b with
    | nil => simpa [hasCI] using h
    | cons x xs =>
      simp only [List.nil_append, hasCI, Bool.or_eq_true]
      exact Or.inl (isPrefixCI_append p [] (x :: xs) h)
  | cons c cs ih =>
    intro b h
    simp only [hasCI, Bool.or_eq_true] at h
    simp only [List.cons_append, hasCI, Bool.or_eq_true]
    rcases h with h | h
    · exact Or.inl (by simpa using isPrefixCI_append p (c :: cs) b h)
    · exact Or.inr (ih b h)

theorem hasCI_append_left :
    ∀ (p a m : JsStr), hasCI p m = true → hasCI p (a ++ m) = true := by
  intro p a
  induction a with
  | nil => intro m h; simpa using h
  | cons c cs ih =>
    intro m h
    simp only [List.cons_append, hasCI, Bool.or_eq_true]
    exact Or.inr (ih m h)

theorem findCI_none_iff :
    ∀ (p l : JsStr), findCI p l = none ↔ hasCI p l = false := by
  intro p l
  induction l with
  | nil =>
    by_cases h : isPrefixCI p [] = true <;> simp [findCI, hasCI, h]
  | cons c cs ih =>
    by_cases h : isPrefixCI p (c :: cs) = true <;>
      simp [findCI, hasCI, h, ih]

theorem dropWhile_is_drop :
    ∀ (p : Char → Bool) (l : JsStr), ∃ k, l.dropWhile p = l.drop k := by
  intro p l
  induction l with
  | nil => exact ⟨0, rfl⟩
  | cons c cs ih =>
    by_cases h : p c
    · obtain ⟨k, hk⟩ := ih
      exact ⟨k + 1, by simp [List.dropWhile, h, hk]⟩
    · exact ⟨0, by simp [List.dropWhile, h]⟩

theorem stripLeadFence_drop :
    ∀ (l : JsStr), ∃ k, stripLeadFence l = l.drop k := by
  intro l
  match l with
  | [] => exact ⟨0, rfl⟩
  | [a] => exact ⟨0, rfl⟩
  | [a, b] => exact ⟨0, rfl⟩
  | a :: b :: c :: rest =>
    by_cases h : (decide (a = backtick) && decide (b = backtick) && decide (c = backtick)) = true
    · by_cases h2 : isPrefixCI (("html").data) rest = true
      · obtain ⟨k, hk⟩ := dropWhile_is_drop jsSpace (rest.drop 4)
        refine ⟨(4 + k) + 3, ?_⟩
        calc stripLeadFence (a :: b :: c :: rest) = (rest.drop 4).dropWhile jsSpace := by
              simp [stripLeadFence, h, h2]
          _ = (rest.drop 4).drop k := hk
          _ = rest.drop (4 + k) := List.drop_drop k 4 rest
          _ = (a :: b :: c :: rest).drop ((4 + k) + 3) := rfl
      · obtain ⟨k, hk⟩ := dropWhile_is_drop jsSpace rest
        refine ⟨k + 3, ?_⟩
        calc stripLeadFence (a :: b :: c :: rest) = rest.dropWhile jsSpace := by
              simp [stripLeadFence, h, h2]
          _ = rest.drop k := hk
          _ = (a :: b :: c :: rest).drop (k + 3) := rfl
    · exact ⟨0, by simp [stripLeadFence, h]⟩

theorem stripTrailFence_decomp :
    ∀ (l : JsStr), ∃ back, l = stripTrailFence l ++ back := by
  intro l
  rcases hrev : l.reverse with _ | ⟨a, rest1⟩
  · refine ⟨[], ?_⟩
    simp [stripTrailFence, hrev]
  · rcases rest1 with _ | ⟨b, rest2⟩
    · exact ⟨[], by simp [stripTrailFence, hrev]⟩
    · rcases rest2 with _ | ⟨c, rest⟩
      · exact ⟨[], by simp [stripTrailFence, hrev]⟩
      · by_cases h : (decide (a = backtick) && decide (b = backtick) && decide (c = backtick)) = true
        · obtain ⟨k, hk⟩ := dropWhile_is_drop jsSpace rest
          refine ⟨(rest.take k).reverse ++ [c, b, a], ?_⟩
          have hst : stripTrailFence l = (rest.drop k).reverse := by
            simp [stripTrailFence, hrev, h, hk]
          rw [hst]
          have hl : l = rest.reverse ++ [c, b, a] := by
            calc l = l.reverse.reverse := (List.reverse_reverse l).symm
              _ = (a :: b :: c :: rest).reverse := by rw [hrev]
              _ = rest.reverse ++ [c, b, a] := by simp
          rw [hl]
          have hr : rest.reverse = (rest.drop k).reverse ++ (rest.take k).reverse := by
            conv_lhs => rw [← List.take_append_drop k rest]
            rw [List.reverse_append]
          rw [hr, List.append_assoc]
        · exact ⟨[], by simp [stripTrailFence, hrev, h]⟩

theorem stripFences_decomp :
    ∀ (l : JsStr), ∃ front back, l = front ++ stripFences l ++ back := by
  intro l
  obtain ⟨k, hk⟩ := stripLeadFence_drop l
  obtain ⟨back, hb⟩ := stripTrailFence_decomp (stripLeadFence l)
  refine ⟨l.take k, back, ?_⟩
  calc l = l.take k ++ l.drop k := (List.take_append_drop k l).symm
    _ = l.take k ++ stripLeadFence l := by rw [hk]
    _ = l.take k ++ (stripFences l ++ back) := by rw [stripFences, ← hb]
    _ = l.take k ++ stripFences l ++ back := by rw [List.append_assoc]

theorem hasCI_of_infix :
    ∀ (p front mid back : JsStr), hasCI p mid = true →
      hasCI p (front ++ mid ++ back) = true := by
  intro p front mid back h
  simpa [List.append_assoc] using
    hasCI_append_left p front (mid ++ back) (hasCI_append_right p mid back h)

theorem hasCI_strip_false :
    ∀ (p l : JsStr), hasCI p l = false → hasCI p (stripFences l) = false := by
  intro p l h
  by_contra hcon
  obtain ⟨front, back, hd⟩ := stripFences_decomp l
  have : hasCI p l = true := by
    rw [hd]
    exact hasCI_of_infix p front _ back (by simpa using hcon)
  rw [h] at this
  cases this

theorem hasCI_drop_false :
    ∀ (p l : JsStr) (m : Nat), hasCI p l = false → hasCI p (l.drop m) = false := by
  intro p l m h
  by_contra hcon
  have : hasCI p l = true := by
    conv_lhs => rw [← List.take_append_drop m l]
    exact hasCI_append_left p (l.take m) _ (by simpa using hcon)
  rw [h] at this
  cases this

theorem cutFirstHtmlDoc_none :
    ∀ (s : JsStr), hasCI (("</html>").data) s = false → cutFirstHtmlDoc s = none := by
  intro s h
  have hnone : ∀ m, findCI (("</html>").data) (s.drop m) = none := by
    intro m
    rw [findCI_none_iff]
    exact hasCI_drop_false _ s m h
  simp only [cutFirstHtmlDoc]
  rcases hdoc : findCI (("<!doctype html").data) s with _ | i <;>
    rcases htag : findCI (("<html").data) s with _ | j <;>
      simp [hdoc, htag, hnone]

theorem hasSub_nil_pat : ∀ (l : JsStr), hasSub [] l = true := by
  intro l
  cases l <;> simp [hasSub, List.isPrefixOf]

theorem isPrefixOf_self_append :
    ∀ (p b : JsStr), p.isPrefixOf (p ++ b) = true := by
  intro p
  induction p with
  | nil => intro b; simp [List.isPrefixOf]
  | cons c cs ih =>
    intro b
    simp only [List.cons_append, List.isPrefixOf, Bool.and_eq_true]
    exact ⟨by simp, ih b⟩

theorem hasSub_infix :
    ∀ (a p b : JsStr), hasSub p (a ++ p ++ b) = true := by
  intro a
  induction a with
  | nil =>
    intro p b
    cases p with
    | nil => simpa using hasSub_nil_pat b
    | cons c cs =>
      simp only [List.nil_append, List.cons_append, hasSub, Bool.or_eq_true]
      exact Or.inl (by simp [isPrefixOf_self_append (c :: cs) b])
  | cons x xs ih =>
    intro p b
    simp only [List.cons_append, hasSub, Bool.or_eq_true]
    exact Or.inr (by simpa [List.append_assoc] using ih p b)

/-- C7: for every extraction state in which some position holds a
non-empty buffer containing no closing `</html>` tag anywhere (in any
letter case), `finalizeSlides` returns for that position a slide whose
html is the synthesized minimal document shell wrapping the
(fence-stripped) buffer text — a syntactically complete document
containing `<!doctype html>`, a `<head>`, and a `<body>`, with a title
referencing the slide position — so every slide with non-empty content
yields well-formed output and assembly never fails. -/
theorem claim7_minimal_shell :
    ∀ (st : StreamExtractionState) (pos : Int) (ts : ToolState),
      (pos, ts) ∈ st.toolState →
      jsTrim ts.buf ≠ [] →
      hasCI (("</html>").data) ts.buf = false →
      ((pos, shellHtml pos (stripFences ts.buf)) ∈ finalizeSlides st ∧
       hasSub (("<!doctype html>").data) (shellHtml pos (stripFences ts.buf)) = true ∧
       hasSub (("<head>").data) (shellHtml pos (stripFences ts.buf)) = true ∧
       hasSub (("<body>").data) (shellHtml pos (stripFences ts.buf)) = true ∧
       hasSub ((("<title>Slide ").data) ++ (toString pos).data)
         (shellHtml pos (stripFences ts.buf)) = true) := by
  intro st pos ts hmem htrim hcl
  have hcut : cutFirstHtmlDoc (stripFences ts.buf) = none :=
    cutFirstHtmlDoc_none _ (hasCI_strip_false _ _ hcl)
  constructor
  · have hme : (pos, ts.buf) ∈
        (st.toolState.map (fun e => (e.1, e.2.buf))).filter
          (fun e => !(jsTrim e.2).isEmpty) := by
      apply List.mem_filter.mpr
      refine ⟨List.mem_map.mpr ⟨(pos, ts), hmem, rfl⟩, ?_⟩
      simp [List.isEmpty_iff, htrim]
    have hsorted : (pos, ts.buf) ∈ finalizeEntries st := (mem_sortByKey _ _).mpr hme
    have hslide : (pos, shellHtml pos (stripFences ts.buf)) ∈
        (finalizeEntries st).map sliceHtml := by
      apply List.mem_map.mpr
      exact ⟨(pos, ts.buf), hsorted, by simp [sliceHtml, hcut]⟩
    have hneg : ((finalizeEntries st).map sliceHtml).isEmpty = false := by
      cases hq : ((finalizeEntries st).map sliceHtml).isEmpty
      · rfl
      · rw [List.isEmpty_iff] at hq
        rw [hq] at hslide
        cases hslide
    simp only [finalizeSlides, hneg, Bool.false_eq_true, if_false]
    exact hslide
  · refine ⟨?_, ?_, ?_, ?_⟩
    · have h := hasSub_infix ([] : JsStr) (("<!doctype html>").data)
        ((("<html><head><meta charset=\"utf-8\"><title>Slide ").data) ++
          (toString pos).data ++ ("</title></head><body>").data ++
          stripFences ts.buf ++ ("</body></html>").data)
      have heq : ([] : JsStr) ++ (("<!doctype html>").data) ++
          ((("<html><head><meta charset=\"utf-8\"><title>Slide ").data) ++
            (toString pos).data ++ ("</title></head><body>").data ++
            stripFences ts.buf ++ ("</body></html>").data) =
          shellHtml pos (stripFences ts.buf) := by
        show _ = ("<!doctype html><html><head><meta charset=\"utf-8\"><title>Slide ").data ++
          (toString pos).data ++ ("</title></head><body>").data ++
          stripFences ts.buf ++ ("</body></html>").data
        rw [show ("<!doctype html><html><head><meta charset=\"utf-8\"><title>Slide ").data =
          (("<!doctype html>").data) ++
            ("<html><head><meta charset=\"utf-8\"><title>Slide ").data from by decide]
        simp [List.append_assoc]
      rwa [heq] at h
    · have h := hasSub_infix (("<!doctype html><html>").data) (("<head>").data)
        ((("<meta charset=\"utf-8\"><title>Slide ").data) ++
          (toString pos).data ++ ("</title></head><body>").data ++
          stripFences ts.buf ++ ("</body></html>").data)
      have heq : (("<!doctype html><html>").data) ++ (("<head>").data) ++
          ((("<meta charset=\"utf-8\"><title>Slide ").data) ++
            (toString pos).data ++ ("</title></head><body>").data ++
            stripFences ts.buf ++ ("</body></html>").data) =
          shellHtml pos (stripFences ts.buf) := by
        show _ = ("<!doctype html><html><head><meta charset=\"utf-8\"><title>Slide ").data ++
          (toString pos).data ++ ("</title></head><body>").data ++
          stripFences ts.buf ++ ("</body></html>").data
        rw [show ("<!doctype html><html><head><meta charset=\"utf-8\"><title>Slide ").data =
          (("<!doctype html><html>").data) ++ (("<head>").data) ++
            ("<meta charset=\"utf-8\"><title>Slide ").data from by decide]
        simp [List.append_assoc]
      rwa [heq] at h
    · have h := hasSub_infix
        ((("<!doctype html><html><head><meta charset=\"utf-8\"><title>Slide ").data) ++
          (toString pos).data ++ ("</title></head>").data)
        (("<body>").data)
        (stripFences ts.buf ++ ("</body></html>").data)
      have heq : ((("<!doctype html><html><head><meta charset=\"utf-8\"><title>Slide ").data) ++
            (toString pos).data ++ ("</title></head>").data) ++ (("<body>").data) ++
          (stripFences ts.buf ++ ("</body></html>").data) =
          shellHtml pos (stripFences ts.buf) := by
        show _ = ("<!doctype html><html><head><meta charset=\"utf-8\"><title>Slide ").data ++
          (toString pos).data ++ ("</title></head><body>").data ++
          stripFences ts.buf ++ ("</body></html>").data
        rw [show ("</title></head><body>").data =
          (("</title></head>").data) ++ (("<body>").data) from by decide]
        simp [List.append_assoc]
      rwa [heq] at h
    · have h := hasSub_infix
        (("<!doctype html><html><head><meta charset=\"utf-8\">").data)
        ((("<title>Slide ").data) ++ (toString pos).data)
        (("</title></head><body>").data ++ stripFences ts.buf ++ ("</body></html>").data)
      have heq : (("<!doctype html><html><head><meta charset=\"utf-8\">").data) ++
          ((("<title>Slide ").data) ++ (toString pos).data) ++
          (("</title></head><body>").data ++ stripFences ts.buf ++ ("</body></html>").data) =
          shellHtml pos (stripFences ts.buf) := by
        show _ = ("<!doctype html><html><head><meta charset=\"utf-8\"><title>Slide ").data ++
          (toString pos).data ++ ("</title></head><body>").data ++
          stripFences ts.buf ++ ("</body></html>").data
        rw [show ("<!doctype html><html><head><meta charset=\"utf-8\"><title>Slide ").data =
          (("<!doctype html><html><head><meta charset=\"utf-8\">").data) ++
            (("<title>Slide ").data) from by decide]
        simp [List.append_assoc]
      rwa [heq] at h

theorem claim7_witness :
    (((1 : Int), (⟨("hello").data, 5, false⟩ : ToolState)) ∈
      (⟨[(1, ⟨("hello").data, 5, false⟩)], []⟩ : StreamExtractionState).toolState) ∧
    (jsTrim (⟨("hello").data, 5, false⟩ : ToolState).buf ≠ []) ∧
    (hasCI (("</html>").data) (⟨("hello").data, 5, false⟩ : ToolState).buf = false) ∧
    ((1, shellHtml 1 (stripFences (("hello").data))) ∈
      finalizeSlides ⟨[(1, ⟨("hello").data, 5, false⟩)], []⟩) :=
  ⟨by decide, by decide, by decide,
   (claim7_minimal_shell ⟨[(1, ⟨("hello").data, 5, false⟩)], []⟩ 1
     ⟨("hello").data, 5, false⟩ (by decide) (by decide) (by decide)).1⟩
